import Mathlib

/-!
Verification of the VMAP scalar codecs (src/vmap/structure.go): the
clock-style Duration codec and the polymorphic TimeOffset codec.  The Go
code is embedded shallowly: byte loops become recursions over `List Char`,
the mutated receiver of `TimeOffset.UnmarshalText` becomes explicit state
passing, and `time.Duration` (an int64 count of nanoseconds) becomes an
`Int` with the overflow guards of `time.ParseDuration` made explicit.
-/

set_option maxHeartbeats 1000000
set_option maxRecDepth 4000

namespace VMAP

/-- A decimal digit character, as matched by the digit cases of the scanner
loop in Duration.UnmarshalText (the bytes between ASCII 48 and 57). -/
def isDig (c : Char) : Bool := 48 ≤ c.toNat && c.toNat ≤ 57

/-- A separator character of the duration format (the ':' and '.' cases of
the scanner loop). -/
def isSep (c : Char) : Bool := c = ':' || c = '.'

/-- Value of a digit run, accumulated left to right onto `acc` (the digit
accumulation both of strconv.ParseInt and of time.ParseDuration). -/
def digitsVal (acc : Nat) (l : List Char) : Nat :=
  l.foldl (fun a c => a * 10 + (c.toNat - 48)) acc

/-- The character of a single decimal digit. -/
def dchar (n : Nat) : Char := Char.ofNat (48 + n)

/-- Digit-by-digit loop of the decimal rendering, driven by a fuel
argument so that the recursion is structural; any fuel above the value
itself suffices, see decToCharsAux_stable. -/
def decToCharsAux : Nat → Nat → List Char
  | 0, _ => []
  | f + 1, n =>
    if n < 10 then [dchar n]
    else decToCharsAux f (n / 10) ++ [dchar (n % 10)]

/-- Decimal rendering of a natural number, as the %d verb of fmt.Sprintf
produces it. -/
def decToChars (n : Nat) : List Char := decToCharsAux (n + 1) n

/-- Left zero padding to width `w` (the %02d and %03d verbs). -/
def padDec (w n : Nat) : List Char :=
  List.replicate (w - (decToChars n).length) '0' ++ decToChars n

/-- Model of time.Duration: a count of nanoseconds (int64 in Go). -/
structure Duration where
  ns : Int
deriving DecidableEq, Repr

/-- The scanner loop of Duration.UnmarshalText (structure.go:142-154).
`fs` holds the digit fields completed by the separators seen so far, `cur`
the digit run being accumulated, `part` the value of currentPart.  A
separator seen while `part = 3` aborts the whole parse (`none`); digits are
appended to the current field; every other byte is dropped. -/
def durScan : List Char → List (List Char) → List Char → Nat →
    Option (List (List Char) × List Char × Nat)
  | [], fs, cur, part => some (fs, cur, part)
  | c :: cs, fs, cur, part =>
    if isSep c then
      if part = 3 then none
      else durScan cs (fs ++ [cur]) [] (part + 1)
    else if isDig c then durScan cs fs (cur ++ [c]) part
    else durScan cs fs cur part

/-- The unit suffix written after the field of index `i` (the Go array
formatStrings = [h, m, s, ms], structure.go:136). -/
def formatStrings : Nat → List Char
  | 0 => ['h']
  | 1 => ['m']
  | 2 => ['s']
  | _ => ['m', 's']

/-- The full contents of the string builder after the scan: each field
followed by its positional unit suffix (structure.go:149 and :155). -/
def sbChars : List (List Char) → Nat → List Char
  | [], _ => []
  | f :: rest, i => f ++ formatStrings i ++ sbChars rest (i + 1)

/-- Per-character escaping of strconv.Quote on printable ASCII: quote and
backslash receive a backslash, everything else is kept. -/
def escapeChars : List Char → List Char
  | [] => []
  | c :: cs => (if c = '\x22' ∨ c = '\\' then ['\\', c] else [c]) ++ escapeChars cs

/-- Model of strconv.Quote for printable ASCII: surrounding quotes, with
quote and backslash characters escaped.  (strconv.Quote additionally
rewrites control and non-ASCII characters into escape sequences; no
theorem below asserts message content built from such characters.) -/
def goQuote (s : String) : String :=
  "\x22" ++ String.mk (escapeChars s.toList) ++ "\x22"

/-- The unitMap of time.ParseDuration, restricted to the letters that can
occur in the constructed strings (h, m and s, so the merged run of an
empty field can also form the valid key ms); the remaining Go units (ns,
us and the two micro spellings) contain letters the scanner never
writes. -/
def unitMap? : List Char → Option Nat
  | ['h'] => some 3600000000000
  | ['m'] => some 60000000000
  | ['s'] => some 1000000000
  | ['m', 's'] => some 1000000
  | _ => none

/-- The loop of time.ParseDuration on the strings the unmarshaller
constructs (digits and the letters h, m, s; never a sign, a dot, the text
0 or the empty string, so the sign, fraction and special-case branches of
Go are unreachable and omitted).  Each pass consumes a digit run and then
a greedy non-digit unit run, exactly as Go does: leadingInt overflow above
2^63, a missing unit, an unknown unit run, the unit multiplication guard
and the running-sum guard reproduce the checks and messages of
ParseDuration.  The fuel only drives the structural recursion; every pass
consumes at least one character, so any fuel of at least the length of the
input makes the fuel-exhaustion case unreachable. -/
def goParseDurationLoop (orig : String) : Nat → List Char → Nat → Except String Nat
  | _, [], d => .ok d
  | 0, _ :: _, _ => .error ("time: invalid duration " ++ goQuote orig)
  | fuel + 1, c :: cs, d =>
    if isDig c then
      let digits := (c :: cs).takeWhile isDig
      let rest1 := (c :: cs).dropWhile isDig
      let v := digitsVal 0 digits
      if v > 2 ^ 63 then .error ("time: invalid duration " ++ goQuote orig)
      else
        let u := rest1.takeWhile fun x => !(isDig x || x = '.')
        let rest2 := rest1.dropWhile fun x => !(isDig x || x = '.')
        if u = [] then .error ("time: missing unit in duration " ++ goQuote orig)
        else
          match unitMap? u with
          | none => .error ("time: unknown unit " ++ goQuote (String.mk u)
              ++ " in duration " ++ goQuote orig)
          | some unit =>
            if v > 2 ^ 63 / unit then .error ("time: invalid duration " ++ goQuote orig)
            else if d + v * unit > 2 ^ 63 then
              .error ("time: invalid duration " ++ goQuote orig)
            else goParseDurationLoop orig fuel rest2 (d + v * unit)
    else .error ("time: invalid duration " ++ goQuote orig)

/-- Model of time.ParseDuration applied to the constructed field string,
including the final signed-range check; all messages quote the constructed
string itself, never the original attribute text. -/
def parseGoDuration (fields : List (List Char)) : Except String Nat :=
  let sb := sbChars fields 0
  let orig := String.mk sb
  match goParseDurationLoop orig (sb.length + 1) sb 0 with
  | .error e => .error e
  | .ok d =>
    if d > 2 ^ 63 - 1 then .error ("time: invalid duration " ++ goQuote orig)
    else .ok d

/-- Model of Duration.UnmarshalText (structure.go:138-167): scan the bytes,
fail on a fourth separator or on fewer than two separators, then hand the
constructed unit string to time.ParseDuration. -/
def Duration.unmarshalText (data : String) : Except String Duration :=
  match durScan data.toList [] [] 0 with
  | none => .error ("invalid duration format: " ++ data)
  | some (fs, cur, part) =>
    if part < 2 then .error ("invalid duration format: " ++ data)
    else
      match parseGoDuration (fs ++ [cur]) with
      | .error e => .error ("error parsing duration: " ++ e)
      | .ok d => .ok ⟨(d : Int)⟩

/-- Model of Duration.MarshalText (structure.go:169-184).  Go computes the
hour, minute and second counts through float64 (Duration.Hours() and
friends) truncated by int(...); for the non-negative whole-millisecond
durations this codec produces those truncations are exact and equal the
integer divisions used here. -/
def Duration.marshalText (d : Duration) : String :=
  if d.ns = 0 then "00:00:00"
  else
    let t := d.ns.toNat
    let hours := t / 3600000000000
    let minutes := t / 60000000000 % 60
    let seconds := t / 1000000000 % 60
    let milliseconds := t / 1000000 % 1000
    String.mk (padDec 2 hours ++ [':'] ++ padDec 2 minutes ++ [':'] ++ padDec 2 seconds
      ++ (if milliseconds > 0 then '.' :: padDec 3 milliseconds else []))

/-- Model of the TimeOffset struct (structure.go:187-197): three optional
fields rather than a tagged union.  Percent is a float32 in Go; it only
ever holds a small integer divided by 100, represented here exactly as a
rational. -/
structure TimeOffset where
  Duration : Option Duration
  Position : Int
  Percent : Rat
deriving DecidableEq, Repr

/-- The Go zero value of TimeOffset, the state UnmarshalText starts from
when the document decoder allocates a fresh struct. -/
def TimeOffset.zero : TimeOffset := ⟨none, 0, 0⟩

/-- Sentinel position reserved for the start anchor (structure.go:200). -/
def OffsetStart : Int := -1

/-- Sentinel position reserved for the end anchor (structure.go:201). -/
def OffsetEnd : Int := -2

/-- Body of the strconv.ParseInt model, matching on the byte list; `s` is
only used to render the error messages NumError.Error() produces. -/
def goParseInt8Aux (s : String) : List Char → Except String Int
  | [] => .error ("strconv.ParseInt: parsing " ++ goQuote s ++ ": invalid syntax")
  | c :: cs =>
    let ds := if c = '-' || c = '+' then cs else c :: cs
    if ds.isEmpty || !ds.all isDig then
      .error ("strconv.ParseInt: parsing " ++ goQuote s ++ ": invalid syntax")
    else
      let v := digitsVal 0 ds
      if c = '-' then
        if v > 128 then
          .error ("strconv.ParseInt: parsing " ++ goQuote s ++ ": value out of range")
        else .ok (-(v : Int))
      else
        if v > 127 then
          .error ("strconv.ParseInt: parsing " ++ goQuote s ++ ": value out of range")
        else .ok (v : Int)

/-- Model of strconv.ParseInt(s, 10, 8): an optional sign followed by
decimal digits, the result within the signed 8-bit range.  The error
message is the one NumError.Error() renders, quoting the argument. -/
def goParseInt8 (s : String) : Except String Int := goParseInt8Aux s s.toList

/-- Model of TimeOffset.UnmarshalText (structure.go:204-232).  Go mutates
the receiver in place; here the state is passed and returned explicitly,
together with the error when there is one.  The duration branch points
off.Duration at a fresh zero Duration before parsing into it, so that
field stays set even when the delegated parse fails. -/
def TimeOffset.unmarshalText (off : TimeOffset) (data : String) :
    TimeOffset × Option String :=
  if data = "start" then ({ off with Position := OffsetStart }, none)
  else if data = "end" then ({ off with Position := OffsetEnd }, none)
  else if data.toList.getLast? = some '%' then
    match goParseInt8 (String.mk data.toList.dropLast) with
    | .error e => (off, some ("error parsing percentage offset: " ++ e))
    | .ok p => ({ off with Percent := (p : Rat) / 100 }, none)
  else if data.toList.head? = some '#' then
    match goParseInt8 (String.mk data.toList.tail) with
    | .error e => (off, some ("error parsing position offset: " ++ e))
    | .ok p => ({ off with Position := p }, none)
  else
    match Duration.unmarshalText data with
    | .ok d => ({ off with Duration := some d }, none)
    | .error e => ({ off with Duration := some ⟨0⟩ }, some e)

/-- Decimal rendering of an integer (the %d verb on a signed value). -/
def intToDecimal (n : Int) : List Char :=
  if n < 0 then '-' :: decToChars n.natAbs else decToChars n.natAbs

/-- Model of the %f verb at its default precision of six fraction digits,
on an exactly represented value, rounding to nearest. -/
def goFmtF (r : Rat) : String :=
  let n := (Int.floor (|r| * 1000000 + 1 / 2)).toNat
  (if r < 0 then "-" else "") ++ String.mk (decToChars (n / 1000000))
    ++ "." ++ String.mk (padDec 6 (n % 1000000))

/-- Model of TimeOffset.MarshalText (structure.go:234-244): a present
Duration wins, then a non-zero Position, then a non-zero Percent, else
empty text. -/
def TimeOffset.marshalText (off : TimeOffset) : String :=
  match off.Duration with
  | some d => d.marshalText
  | none =>
    if off.Position ≠ 0 then "#" ++ String.mk (intToDecimal off.Position)
    else if off.Percent ≠ 0 then goFmtF (off.Percent * 100) ++ "%"
    else ""

/-- The subsequence of the input the duration scanner reacts to: digits
kept, either separator normalised to ':', every other character dropped. -/
def sig (l : List Char) : List Char :=
  l.filterMap fun c => if isSep c then some ':' else if isDig c then some c else none

/-- The number of separator characters in an input. -/
def sepCount (l : List Char) : Nat := (l.filter isSep).length

/-- Stated from the wording of claim C7: the text is a decimal integer
(an optional sign followed by one or more digits) with the given value.
This is the spec-side notion compared against goParseInt8. -/
def decimalIntValAux : List Char → Option Int
  | [] => none
  | c :: cs =>
    let ds := if c = '-' || c = '+' then cs else c :: cs
    if ds.isEmpty || !ds.all isDig then none
    else some ((if c = '-' then -1 else 1) * digitsVal 0 ds)

/-- See decimalIntValAux; stated on the text handed to the codec. -/
def decimalIntVal? (s : String) : Option Int := decimalIntValAux s.toList

/-! Basic facts about digits, decimal rendering and digit values. -/

lemma isSep_eq_false_of_isDig {c : Char} (h : isDig c = true) : isSep c = false := by
  by_cases h1 : c = ':'
  · subst h1; revert h; decide
  · by_cases h2 : c = '.'
    · subst h2; revert h; decide
    · simp [isSep, h1, h2]

lemma dchar_toNat {n : Nat} (h : n < 10) : (dchar n).toNat = 48 + n := by
  interval_cases n <;> decide

lemma isDig_dchar {n : Nat} (h : n < 10) : isDig (dchar n) = true := by
  interval_cases n <;> decide

lemma decToCharsAux_stable : ∀ f n g : Nat, n < f → n < g →
    decToCharsAux f n = decToCharsAux g n := by
  intro f
  induction f with
  | zero => intro n g h _; omega
  | succ f ih =>
    intro n g hf hg
    cases g with
    | zero => omega
    | succ g =>
      simp only [decToCharsAux]
      by_cases h10 : n < 10
      · simp [h10]
      · have hdiv := Nat.div_lt_self (n := n) (by omega) (by omega : 1 < 10)
        simp only [h10, if_false]
        rw [ih (n / 10) g (by omega) (by omega)]

lemma decToChars_eq (n : Nat) : decToChars n =
    if n < 10 then [dchar n] else decToChars (n / 10) ++ [dchar (n % 10)] := by
  unfold decToChars
  by_cases h : n < 10
  · simp [decToCharsAux, h]
  · have hdiv := Nat.div_lt_self (n := n) (by omega) (by omega : 1 < 10)
    simp only [decToCharsAux, h, if_false]
    congr 1
    exact decToCharsAux_stable n (n / 10) (n / 10 + 1) (by omega) (by omega)

lemma decToChars_ne_nil (n : Nat) : decToChars n ≠ [] := by
  rw [decToChars_eq]; split <;> simp

lemma decToChars_all_digits : ∀ n : Nat, ∀ c ∈ decToChars n, isDig c = true := by
  intro n
  induction n using Nat.strong_induction_on with
  | _ n ih =>
    rw [decToChars_eq]
    by_cases h : n < 10
    · simp only [h, if_true, List.mem_singleton]
      intro c hc; subst hc; exact isDig_dchar h
    · simp only [h, if_false]
      intro c hc
      rcases List.mem_append.mp hc with h1 | h1
      · exact ih (n / 10) (Nat.div_lt_self (by omega) (by omega)) c h1
      · rcases List.mem_singleton.mp h1 with rfl
        exact isDig_dchar (Nat.mod_lt _ (by omega))

lemma digitsVal_append (acc : Nat) (l1 l2 : List Char) :
    digitsVal acc (l1 ++ l2) = digitsVal (digitsVal acc l1) l2 := by
  simp [digitsVal, List.foldl_append]

lemma digitsVal_cons (acc : Nat) (c : Char) (l : List Char) :
    digitsVal acc (c :: l) = digitsVal (acc * 10 + (c.toNat - 48)) l := rfl

lemma digitsVal_decToChars : ∀ n acc : Nat,
    digitsVal acc (decToChars n) = acc * 10 ^ (decToChars n).length + n := by
  intro n
  induction n using Nat.strong_induction_on with
  | _ n ih =>
    intro acc
    rw [decToChars_eq]
    by_cases h : n < 10
    · simp only [h, if_true, List.length_singleton, pow_one]
      rw [digitsVal_cons]
      simp [digitsVal, dchar_toNat h]
    · have hdiv := Nat.div_lt_self (n := n) (by omega) (by omega : 1 < 10)
      have hmod := Nat.div_add_mod n 10
      simp only [h, if_false]
      rw [digitsVal_append, ih (n / 10) hdiv acc, List.length_append,
        List.length_singleton, digitsVal_cons]
      simp only [digitsVal, List.foldl_nil, dchar_toNat (Nat.mod_lt n (by omega))]
      rw [pow_succ, ← mul_assoc]
      omega

lemma digitsVal_decToChars_zero (n : Nat) : digitsVal 0 (decToChars n) = n := by
  simpa using digitsVal_decToChars n 0

lemma digitsVal_replicate_zero : ∀ k : Nat, digitsVal 0 (List.replicate k '0') = 0 := by
  intro k
  induction k with
  | zero => rfl
  | succ k ihk =>
    rw [List.replicate_succ, digitsVal_cons]
    have h0 : 0 * 10 + (('0').toNat - 48) = 0 := by decide
    rw [h0]; exact ihk

lemma digitsVal_padDec (w n : Nat) : digitsVal 0 (padDec w n) = n := by
  unfold padDec
  rw [digitsVal_append, digitsVal_replicate_zero, digitsVal_decToChars_zero]

lemma padDec_ne_nil (w n : Nat) : padDec w n ≠ [] := by
  unfold padDec
  intro h
  rcases List.append_eq_nil.mp h with ⟨_, h2⟩
  exact decToChars_ne_nil n h2

lemma padDec_all_digits (w n : Nat) : ∀ c ∈ padDec w n, isDig c = true := by
  intro c hc
  rcases List.mem_append.mp hc with h | h
  · rcases List.eq_of_mem_replicate h with rfl; decide
  · exact decToChars_all_digits n c h

/-! Facts about the scanner loop. -/

lemma durScan_digits (ds : List Char) (hds : ∀ c ∈ ds, isDig c = true) :
    ∀ cs fs cur part, durScan (ds ++ cs) fs cur part = durScan cs fs (cur ++ ds) part := by
  induction ds with
  | nil => intro cs fs cur part; simp
  | cons d ds ih =>
    intro cs fs cur part
    have hd : isDig d = true := hds d (by simp)
    have hs : isSep d = false := isSep_eq_false_of_isDig hd
    have hstep : durScan (d :: (ds ++ cs)) fs cur part
        = durScan (ds ++ cs) fs (cur ++ [d]) part := by
      simp [durScan, hs, hd]
    rw [List.cons_append, hstep, ih (fun c hc => hds c (by simp [hc])) cs fs (cur ++ [d]) part]
    simp

lemma durScan_sep (c : Char) (hc : isSep c = true) (part : Nat) (hp : part ≠ 3)
    (cs : List Char) (fs : List (List Char)) (cur : List Char) :
    durScan (c :: cs) fs cur part = durScan cs (fs ++ [cur]) [] (part + 1) := by
  simp [durScan, hc, hp]

lemma durScan_digits_end (ds : List Char) (hds : ∀ c ∈ ds, isDig c = true)
    (fs : List (List Char)) (cur : List Char) (part : Nat) :
    durScan ds fs cur part = some (fs, cur ++ ds, part) := by
  have h := durScan_digits ds hds [] fs cur part
  simpa using h

lemma durScan_sep_abort {c : Char} (hc : isSep c = true) (cs : List Char)
    (fs : List (List Char)) (cur : List Char) :
    durScan (c :: cs) fs cur 3 = none := by
  simp [durScan, hc]

lemma durScan_sig : ∀ (l : List Char) fs cur part,
    durScan l fs cur part = durScan (sig l) fs cur part := by
  intro l
  induction l with
  | nil => intros; simp [sig]
  | cons c cs ih =>
    intro fs cur part
    by_cases hs : isSep c = true
    · have hsig : sig (c :: cs) = ':' :: sig cs := by simp [sig, hs]
      rw [hsig]
      by_cases hp : part = 3
      · subst hp
        rw [durScan_sep_abort hs, durScan_sep_abort (by decide)]
      · rw [durScan_sep c hs part hp, durScan_sep ':' (by decide) part hp, ih]
    · have hs' : isSep c = false := by simpa using hs
      by_cases hd : isDig c = true
      · have hsig : sig (c :: cs) = c :: sig cs := by simp [sig, hs', hd]
        rw [hsig]
        simp only [durScan, hs', hd, Bool.false_eq_true, if_false, if_true]
        exact ih _ _ _
      · have hd' : isDig c = false := by simpa using hd
        have hsig : sig (c :: cs) = sig cs := by simp [sig, hs', hd']
        rw [hsig]
        simp only [durScan, hs', hd', Bool.false_eq_true, if_false]
        exact ih _ _ _

lemma sepCount_cons (c : Char) (cs : List Char) :
    sepCount (c :: cs) = (if isSep c then 1 else 0) + sepCount cs := by
  simp only [sepCount, List.filter_cons]
  split <;> simp [Nat.add_comm]

lemma durScan_spec : ∀ (l : List Char) fs cur part, part ≤ 3 →
    (durScan l fs cur part = none ↔ 4 ≤ part + sepCount l) ∧
    (∀ fs1 cur1 part1, durScan l fs cur part = some (fs1, cur1, part1) →
      part1 = part + sepCount l) := by
  intro l
  induction l with
  | nil =>
    intro fs cur part hp
    constructor
    · constructor
      · intro h; simp [durScan] at h
      · intro h; exfalso; simp [sepCount] at h; omega
    · intro fs1 cur1 part1 h
      simp only [durScan, Option.some.injEq, Prod.mk.injEq] at h
      obtain ⟨-, -, h3⟩ := h
      simp [sepCount]
      omega
  | cons c cs ih =>
    intro fs cur part hp
    rw [sepCount_cons]
    by_cases hs : isSep c = true
    · simp only [hs, if_true]
      by_cases h3 : part = 3
      · subst h3
        rw [durScan_sep_abort hs]
        constructor
        · simp; omega
        · intro _ _ _ h; simp at h
      · rw [durScan_sep c hs part h3]
        obtain ⟨ih1, ih2⟩ := ih (fs ++ [cur]) [] (part + 1) (by omega)
        constructor
        · rw [ih1]; omega
        · intro fs1 cur1 part1 h
          have := ih2 fs1 cur1 part1 h
          omega
    · have hs' : isSep c = false := by simpa using hs
      simp only [hs', Bool.false_eq_true, if_false, Nat.zero_add]
      by_cases hd : isDig c = true
      · have hstep : durScan (c :: cs) fs cur part = durScan cs fs (cur ++ [c]) part := by
          simp [durScan, hs', hd]
        rw [hstep]
        exact ih fs (cur ++ [c]) part hp
      · have hd' : isDig c = false := by simpa using hd
        have hstep : durScan (c :: cs) fs cur part = durScan cs fs cur part := by
          simp [durScan, hs', hd']
        rw [hstep]
        exact ih fs cur part hp

lemma toList_mk (l : List Char) : (String.mk l).toList = l := rfl

lemma durScan_run3 (f0 f1 f2 : List Char)
    (h0 : ∀ c ∈ f0, isDig c = true) (h1 : ∀ c ∈ f1, isDig c = true)
    (h2 : ∀ c ∈ f2, isDig c = true) :
    durScan (f0 ++ ':' :: (f1 ++ ':' :: f2)) [] [] 0 = some ([f0, f1], f2, 2) := by
  rw [durScan_digits f0 h0, durScan_sep ':' (by decide) 0 (by omega),
    durScan_digits f1 h1, durScan_sep ':' (by decide) 1 (by omega),
    durScan_digits_end f2 h2]
  simp

lemma durScan_run4 (f0 f1 f2 f3 : List Char)
    (h0 : ∀ c ∈ f0, isDig c = true) (h1 : ∀ c ∈ f1, isDig c = true)
    (h2 : ∀ c ∈ f2, isDig c = true) (h3 : ∀ c ∈ f3, isDig c = true) :
    durScan (f0 ++ ':' :: (f1 ++ ':' :: (f2 ++ '.' :: f3))) [] [] 0
      = some ([f0, f1, f2], f3, 3) := by
  rw [durScan_digits f0 h0, durScan_sep ':' (by decide) 0 (by omega),
    durScan_digits f1 h1, durScan_sep ':' (by decide) 1 (by omega),
    durScan_digits f2 h2, durScan_sep '.' (by decide) 2 (by omega),
    durScan_digits_end f3 h3]
  simp

/-! Evaluation of the construction and parsing stages on well-formed
three- and four-field inputs, and the round trip of claim C1. -/

lemma takeWhile_append_eq (p : Char → Bool) :
    ∀ (l1 l2 : List Char), (∀ c ∈ l1, p c = true) →
    (l2 = [] ∨ ∃ c cs, l2 = c :: cs ∧ p c = false) →
    (l1 ++ l2).takeWhile p = l1 ∧ (l1 ++ l2).dropWhile p = l2 := by
  intro l1
  induction l1 with
  | nil =>
    intro l2 _ h2
    rcases h2 with rfl | ⟨c, cs, rfl, hc⟩
    · simp
    · simp [List.takeWhile_cons, List.dropWhile_cons, hc]
  | cons a l1 ih =>
    intro l2 h1 h2
    have ha : p a = true := h1 a (by simp)
    obtain ⟨iht, ihd⟩ := ih l2 (fun c hc => h1 c (by simp [hc])) h2
    constructor
    · simp [List.takeWhile_cons, ha, iht]
    · simp [List.dropWhile_cons, ha, ihd]

lemma loop_nil (orig : String) (fuel d : Nat) :
    goParseDurationLoop orig fuel [] d = .ok d := by
  cases fuel <;> rfl

/-- One pass of the ParseDuration loop on a digit field followed by its
unit run, when no guard fires. -/
lemma loop_step (orig : String) (fuel : Nat) (f u rest rest' : List Char)
    (d unitv : Nat)
    (hfuel : fuel ≠ 0)
    (hsplit : rest' = u ++ rest)
    (hfne : f ≠ []) (hfd : ∀ c ∈ f, isDig c = true)
    (hune : u ≠ []) (hud : ∀ c ∈ u, (!(isDig c || c = '.')) = true)
    (hrest : rest = [] ∨ ∃ c cs, rest = c :: cs ∧ isDig c = true)
    (humap : unitMap? u = some unitv)
    (hv1 : ¬ digitsVal 0 f > 2 ^ 63)
    (hv2 : ¬ digitsVal 0 f > 2 ^ 63 / unitv)
    (hv3 : ¬ d + digitsVal 0 f * unitv > 2 ^ 63) :
    goParseDurationLoop orig fuel (f ++ rest') d
      = goParseDurationLoop orig (fuel - 1) rest (d + digitsVal 0 f * unitv) := by
  obtain ⟨g, rfl⟩ : ∃ g, fuel = g + 1 := ⟨fuel - 1, by omega⟩
  obtain ⟨c0, f', rfl⟩ : ∃ c0 f', f = c0 :: f' := by
    cases f with
    | nil => exact absurd rfl hfne
    | cons a as => exact ⟨a, as, rfl⟩
  have hc0 : isDig c0 = true := hfd c0 (by simp)
  have hrest' : rest' = [] ∨ ∃ c cs, rest' = c :: cs ∧ isDig c = false := by
    obtain ⟨cu, u', rfl⟩ : ∃ cu u', u = cu :: u' := by
      cases u with
      | nil => exact absurd rfl hune
      | cons a as => exact ⟨a, as, rfl⟩
    have := hud cu (by simp)
    refine Or.inr ⟨cu, u' ++ rest, by simp [hsplit], ?_⟩
    rcases hb : isDig cu with - | -
    · rfl
    · rw [hb] at this; simp at this
  obtain ⟨htake, hdrop⟩ := takeWhile_append_eq isDig (c0 :: f') rest' hfd hrest'
  have hrestF : rest = [] ∨ ∃ c cs, rest = c :: cs ∧
      (!(isDig c || c = '.')) = false := by
    rcases hrest with rfl | ⟨c, cs, rfl, hc⟩
    · exact Or.inl rfl
    · exact Or.inr ⟨c, cs, rfl, by simp [hc]⟩
  obtain ⟨htakeU, hdropU⟩ :=
    takeWhile_append_eq (fun x => !(isDig x || x = '.')) u rest hud hrestF
  rw [← hsplit] at htakeU hdropU
  rw [List.cons_append] at htake hdrop
  simp only [List.cons_append, goParseDurationLoop]
  rw [if_pos hc0]
  simp only [List.append_eq]
  simp only [htake, hdrop, htakeU, hdropU]
  rw [if_neg hv1, if_neg hune, humap]
  have hpow : (2 : Nat) ^ 63 = 9223372036854775808 := by norm_num
  rw [hpow] at hv2 hv3
  simp [hv2, hv3]

lemma loop_eval3 (orig : String) (fuel : Nat) (f0 f1 f2 : List Char)
    (v0 v1 v2 : Nat)
    (hfuel : 3 ≤ fuel)
    (hn0 : f0 ≠ []) (hn1 : f1 ≠ []) (hn2 : f2 ≠ [])
    (hd0 : ∀ c ∈ f0, isDig c = true) (hd1 : ∀ c ∈ f1, isDig c = true)
    (hd2 : ∀ c ∈ f2, isDig c = true)
    (e0 : digitsVal 0 f0 = v0) (e1 : digitsVal 0 f1 = v1) (e2 : digitsVal 0 f2 = v2)
    (b0 : v0 ≤ 2562047) (b1 : v1 ≤ 153722867) (b2 : v2 ≤ 9223372036)
    (hsum : v0 * 3600000000000 + v1 * 60000000000 + v2 * 1000000000
      ≤ 9223372036854775807) :
    goParseDurationLoop orig fuel (f0 ++ 'h' :: (f1 ++ 'm' :: (f2 ++ ['s']))) 0
      = .ok (v0 * 3600000000000 + v1 * 60000000000 + v2 * 1000000000) := by
  have hpow : (2 : Nat) ^ 63 = 9223372036854775808 := by norm_num
  have hh1 : ∃ c cs, f1 ++ 'm' :: (f2 ++ ['s']) = c :: cs ∧ isDig c = true := by
    obtain ⟨a, as, rfl⟩ : ∃ a as, f1 = a :: as := by
      cases f1 with
      | nil => exact absurd rfl hn1
      | cons a as => exact ⟨a, as, rfl⟩
    exact ⟨a, as ++ 'm' :: (f2 ++ ['s']), by simp, hd1 a (by simp)⟩
  have hh2 : ∃ c cs, f2 ++ ['s'] = c :: cs ∧ isDig c = true := by
    obtain ⟨a, as, rfl⟩ : ∃ a as, f2 = a :: as := by
      cases f2 with
      | nil => exact absurd rfl hn2
      | cons a as => exact ⟨a, as, rfl⟩
    exact ⟨a, as ++ ['s'], by simp, hd2 a (by simp)⟩
  rw [loop_step orig fuel f0 ['h'] (f1 ++ 'm' :: (f2 ++ ['s']))
      ('h' :: (f1 ++ 'm' :: (f2 ++ ['s']))) 0 3600000000000 (by omega) rfl hn0 hd0
      (by simp) (by decide) (Or.inr hh1) rfl
      (by rw [e0, hpow]; omega) (by rw [e0, hpow]; omega) (by rw [e0, hpow]; omega)]
  rw [loop_step orig (fuel - 1) f1 ['m'] (f2 ++ ['s']) ('m' :: (f2 ++ ['s']))
      (0 + digitsVal 0 f0 * 3600000000000) 60000000000 (by omega) rfl hn1 hd1
      (by simp) (by decide) (Or.inr hh2) rfl
      (by rw [e1, hpow]; omega) (by rw [e1, hpow]; omega)
      (by rw [e0, e1, hpow]; omega)]
  rw [loop_step orig (fuel - 1 - 1) f2 ['s'] [] ['s']
      (0 + digitsVal 0 f0 * 3600000000000 + digitsVal 0 f1 * 60000000000) 1000000000
      (by omega) rfl hn2 hd2 (by simp) (by decide) (Or.inl rfl) rfl
      (by rw [e2, hpow]; omega) (by rw [e2, hpow]; omega)
      (by rw [e0, e1, e2, hpow]; omega)]
  refine (loop_nil orig _ _).trans (congrArg Except.ok ?_)
  rw [e0, e1, e2]
  omega

lemma loop_eval4 (orig : String) (fuel : Nat) (f0 f1 f2 f3 : List Char)
    (v0 v1 v2 v3 : Nat)
    (hfuel : 4 ≤ fuel)
    (hn0 : f0 ≠ []) (hn1 : f1 ≠ []) (hn2 : f2 ≠ []) (hn3 : f3 ≠ [])
    (hd0 : ∀ c ∈ f0, isDig c = true) (hd1 : ∀ c ∈ f1, isDig c = true)
    (hd2 : ∀ c ∈ f2, isDig c = true) (hd3 : ∀ c ∈ f3, isDig c = true)
    (e0 : digitsVal 0 f0 = v0) (e1 : digitsVal 0 f1 = v1) (e2 : digitsVal 0 f2 = v2)
    (e3 : digitsVal 0 f3 = v3)
    (b0 : v0 ≤ 2562047) (b1 : v1 ≤ 153722867) (b2 : v2 ≤ 9223372036)
    (b3 : v3 ≤ 9223372036854)
    (hsum : v0 * 3600000000000 + v1 * 60000000000 + v2 * 1000000000 + v3 * 1000000
      ≤ 9223372036854775807) :
    goParseDurationLoop orig fuel
        (f0 ++ 'h' :: (f1 ++ 'm' :: (f2 ++ 's' :: (f3 ++ ['m', 's'])))) 0
      = .ok (v0 * 3600000000000 + v1 * 60000000000 + v2 * 1000000000
          + v3 * 1000000) := by
  have hpow : (2 : Nat) ^ 63 = 9223372036854775808 := by norm_num
  have hhead : ∀ (f : List Char) (rest : List Char), f ≠ [] →
      (∀ c ∈ f, isDig c = true) →
      ∃ c cs, f ++ rest = c :: cs ∧ isDig c = true := by
    intro f rest hne hd
    obtain ⟨a, as, rfl⟩ : ∃ a as, f = a :: as := by
      cases f with
      | nil => exact absurd rfl hne
      | cons a as => exact ⟨a, as, rfl⟩
    exact ⟨a, as ++ rest, by simp, hd a (by simp)⟩
  rw [loop_step orig fuel f0 ['h'] (f1 ++ 'm' :: (f2 ++ 's' :: (f3 ++ ['m', 's'])))
      ('h' :: (f1 ++ 'm' :: (f2 ++ 's' :: (f3 ++ ['m', 's'])))) 0 3600000000000
      (by omega) rfl hn0 hd0 (by simp) (by decide)
      (Or.inr (hhead f1 _ hn1 hd1)) rfl
      (by rw [e0, hpow]; omega) (by rw [e0, hpow]; omega) (by rw [e0, hpow]; omega)]
  rw [loop_step orig (fuel - 1) f1 ['m'] (f2 ++ 's' :: (f3 ++ ['m', 's']))
      ('m' :: (f2 ++ 's' :: (f3 ++ ['m', 's'])))
      (0 + digitsVal 0 f0 * 3600000000000) 60000000000 (by omega) rfl hn1 hd1
      (by simp) (by decide) (Or.inr (hhead f2 _ hn2 hd2)) rfl
      (by rw [e1, hpow]; omega) (by rw [e1, hpow]; omega)
      (by rw [e0, e1, hpow]; omega)]
  rw [loop_step orig (fuel - 1 - 1) f2 ['s'] (f3 ++ ['m', 's'])
      ('s' :: (f3 ++ ['m', 's']))
      (0 + digitsVal 0 f0 * 3600000000000 + digitsVal 0 f1 * 60000000000)
      1000000000 (by omega) rfl hn2 hd2 (by simp) (by decide)
      (Or.inr (hhead f3 _ hn3 hd3)) rfl
      (by rw [e2, hpow]; omega) (by rw [e2, hpow]; omega)
      (by rw [e0, e1, e2, hpow]; omega)]
  rw [loop_step orig (fuel - 1 - 1 - 1) f3 ['m', 's'] [] ['m', 's']
      (0 + digitsVal 0 f0 * 3600000000000 + digitsVal 0 f1 * 60000000000
        + digitsVal 0 f2 * 1000000000)
      1000000 (by omega) rfl hn3 hd3 (by simp) (by decide) (Or.inl rfl) rfl
      (by rw [e3, hpow]; omega) (by rw [e3, hpow]; omega)
      (by rw [e0, e1, e2, e3, hpow]; omega)]
  refine (loop_nil orig _ _).trans (congrArg Except.ok ?_)
  rw [e0, e1, e2, e3]
  omega

lemma sbChars3 (f0 f1 f2 : List Char) :
    sbChars [f0, f1, f2] 0 = f0 ++ 'h' :: (f1 ++ 'm' :: (f2 ++ ['s'])) := by
  simp [sbChars, formatStrings]

lemma sbChars4 (f0 f1 f2 f3 : List Char) :
    sbChars [f0, f1, f2, f3] 0
      = f0 ++ 'h' :: (f1 ++ 'm' :: (f2 ++ 's' :: (f3 ++ ['m', 's']))) := by
  simp [sbChars, formatStrings]

lemma parseGoDuration_eval3 (f0 f1 f2 : List Char) (v0 v1 v2 : Nat)
    (hn0 : f0 ≠ []) (hn1 : f1 ≠ []) (hn2 : f2 ≠ [])
    (hd0 : ∀ c ∈ f0, isDig c = true) (hd1 : ∀ c ∈ f1, isDig c = true)
    (hd2 : ∀ c ∈ f2, isDig c = true)
    (e0 : digitsVal 0 f0 = v0) (e1 : digitsVal 0 f1 = v1) (e2 : digitsVal 0 f2 = v2)
    (b0 : v0 ≤ 2562047) (b1 : v1 ≤ 153722867) (b2 : v2 ≤ 9223372036)
    (hsum : v0 * 3600000000000 + v1 * 60000000000 + v2 * 1000000000
      ≤ 9223372036854775807) :
    parseGoDuration [f0, f1, f2]
      = .ok (v0 * 3600000000000 + v1 * 60000000000 + v2 * 1000000000) := by
  have hfuel : 3 ≤ (sbChars [f0, f1, f2] 0).length + 1 := by
    rw [sbChars3]
    simp only [List.length_append, List.length_cons]
    omega
  have hloop := loop_eval3 (String.mk (sbChars [f0, f1, f2] 0))
    ((sbChars [f0, f1, f2] 0).length + 1) f0 f1 f2 v0 v1 v2 hfuel
    hn0 hn1 hn2 hd0 hd1 hd2 e0 e1 e2 b0 b1 b2 hsum
  rw [← sbChars3] at hloop
  simp only [parseGoDuration, hloop]
  rw [if_neg (by
    have hpow : (2 : Nat) ^ 63 = 9223372036854775808 := by norm_num
    omega)]

lemma parseGoDuration_eval4 (f0 f1 f2 f3 : List Char) (v0 v1 v2 v3 : Nat)
    (hn0 : f0 ≠ []) (hn1 : f1 ≠ []) (hn2 : f2 ≠ []) (hn3 : f3 ≠ [])
    (hd0 : ∀ c ∈ f0, isDig c = true) (hd1 : ∀ c ∈ f1, isDig c = true)
    (hd2 : ∀ c ∈ f2, isDig c = true) (hd3 : ∀ c ∈ f3, isDig c = true)
    (e0 : digitsVal 0 f0 = v0) (e1 : digitsVal 0 f1 = v1) (e2 : digitsVal 0 f2 = v2)
    (e3 : digitsVal 0 f3 = v3)
    (b0 : v0 ≤ 2562047) (b1 : v1 ≤ 153722867) (b2 : v2 ≤ 9223372036)
    (b3 : v3 ≤ 9223372036854)
    (hsum : v0 * 3600000000000 + v1 * 60000000000 + v2 * 1000000000 + v3 * 1000000
      ≤ 9223372036854775807) :
    parseGoDuration [f0, f1, f2, f3]
      = .ok (v0 * 3600000000000 + v1 * 60000000000 + v2 * 1000000000
          + v3 * 1000000) := by
  have hfuel : 4 ≤ (sbChars [f0, f1, f2, f3] 0).length + 1 := by
    rw [sbChars4]
    simp only [List.length_append, List.length_cons]
    omega
  have hloop := loop_eval4 (String.mk (sbChars [f0, f1, f2, f3] 0))
    ((sbChars [f0, f1, f2, f3] 0).length + 1) f0 f1 f2 f3 v0 v1 v2 v3 hfuel
    hn0 hn1 hn2 hn3 hd0 hd1 hd2 hd3 e0 e1 e2 e3 b0 b1 b2 b3 hsum
  rw [← sbChars4] at hloop
  simp only [parseGoDuration, hloop]
  rw [if_neg (by
    have hpow : (2 : Nat) ^ 63 = 9223372036854775808 := by norm_num
    omega)]

lemma unmarshalText_fields (data : String) (fs : List (List Char)) (cur : List Char)
    (part : Nat) (h : durScan data.toList [] [] 0 = some (fs, cur, part))
    (h2 : ¬ part < 2) :
    Duration.unmarshalText data =
      match parseGoDuration (fs ++ [cur]) with
      | .error e => .error ("error parsing duration: " ++ e)
      | .ok d => .ok ⟨(d : Int)⟩ := by
  unfold Duration.unmarshalText
  rw [h]
  simp [h2]

lemma marshalText_chars (d : Nat) (hne : d ≠ 0) :
    Duration.marshalText ⟨(d : Int) * 1000000⟩ = String.mk
      (padDec 2 (d / 3600000) ++ ':' :: (padDec 2 (d / 60000 % 60)
        ++ ':' :: (padDec 2 (d / 1000 % 60)
        ++ (if d % 1000 > 0 then '.' :: padDec 3 (d % 1000) else [])))) := by
  unfold Duration.marshalText
  have hz : ¬((⟨(d : Int) * 1000000⟩ : Duration).ns = 0) := by
    show ¬((d : Int) * 1000000 = 0)
    intro h
    rcases mul_eq_zero.mp h with h1 | h1
    · exact hne (by exact_mod_cast h1)
    · norm_num at h1
  have ht : ((⟨(d : Int) * 1000000⟩ : Duration).ns).toNat = d * 1000000 := by
    show ((d : Int) * 1000000).toNat = d * 1000000
    rw [show ((d : Int) * 1000000) = ((d * 1000000 : Nat) : Int) by push_cast; ring]
    exact Int.toNat_natCast _
  rw [if_neg hz]
  simp only [ht]
  have e1 : d * 1000000 / 3600000000000 = d / 3600000 := by omega
  have e2 : d * 1000000 / 60000000000 % 60 = d / 60000 % 60 := by omega
  have e3 : d * 1000000 / 1000000000 % 60 = d / 1000 % 60 := by omega
  have e4 : d * 1000000 / 1000000 % 1000 = d % 1000 := by omega
  rw [e1, e2, e3, e4]
  congr 1
  simp [List.append_assoc]

lemma unmarshal_marshal (d : Nat) (hle : d ≤ 9223372036854) :
    Duration.unmarshalText (Duration.marshalText ⟨(d : Int) * 1000000⟩)
      = .ok ⟨(d : Int) * 1000000⟩ := by
  have hcast : ((d * 1000000 : Nat) : Int) = (d : Int) * 1000000 := by push_cast; ring
  by_cases h0 : d = 0
  · subst h0
    rfl
  · rw [marshalText_chars d h0]
    by_cases hms : d % 1000 > 0
    · rw [if_pos hms]
      rw [unmarshalText_fields
        (String.mk (padDec 2 (d / 3600000) ++ ':' :: (padDec 2 (d / 60000 % 60)
          ++ ':' :: (padDec 2 (d / 1000 % 60) ++ '.' :: padDec 3 (d % 1000)))))
        [padDec 2 (d / 3600000), padDec 2 (d / 60000 % 60), padDec 2 (d / 1000 % 60)]
        (padDec 3 (d % 1000)) 3
        (by
          rw [toList_mk]
          exact durScan_run4 (padDec 2 (d / 3600000)) (padDec 2 (d / 60000 % 60))
            (padDec 2 (d / 1000 % 60)) (padDec 3 (d % 1000))
            (padDec_all_digits _ _) (padDec_all_digits _ _)
            (padDec_all_digits _ _) (padDec_all_digits _ _))
        (by omega)]
      have hok : parseGoDuration ([padDec 2 (d / 3600000), padDec 2 (d / 60000 % 60),
          padDec 2 (d / 1000 % 60)] ++ [padDec 3 (d % 1000)]) = .ok (d * 1000000) := by
        have hl : [padDec 2 (d / 3600000), padDec 2 (d / 60000 % 60),
            padDec 2 (d / 1000 % 60)] ++ [padDec 3 (d % 1000)]
            = [padDec 2 (d / 3600000), padDec 2 (d / 60000 % 60),
              padDec 2 (d / 1000 % 60), padDec 3 (d % 1000)] := by simp
        rw [hl]
        have h := parseGoDuration_eval4 (padDec 2 (d / 3600000))
          (padDec 2 (d / 60000 % 60)) (padDec 2 (d / 1000 % 60)) (padDec 3 (d % 1000))
          (d / 3600000) (d / 60000 % 60) (d / 1000 % 60) (d % 1000)
          (padDec_ne_nil _ _) (padDec_ne_nil _ _) (padDec_ne_nil _ _)
          (padDec_ne_nil _ _) (padDec_all_digits _ _) (padDec_all_digits _ _)
          (padDec_all_digits _ _) (padDec_all_digits _ _)
          (digitsVal_padDec _ _) (digitsVal_padDec _ _) (digitsVal_padDec _ _)
          (digitsVal_padDec _ _)
          (by omega) (by omega) (by omega) (by omega) (by omega)
        have hval : d / 3600000 * 3600000000000 + d / 60000 % 60 * 60000000000
            + d / 1000 % 60 * 1000000000 + d % 1000 * 1000000 = d * 1000000 := by omega
        rw [hval] at h
        exact h
      simp only [hok]
      rw [hcast]
    · rw [if_neg hms]
      rw [unmarshalText_fields
        (String.mk (padDec 2 (d / 3600000) ++ ':' :: (padDec 2 (d / 60000 % 60)
          ++ ':' :: (padDec 2 (d / 1000 % 60) ++ []))))
        [padDec 2 (d / 3600000), padDec 2 (d / 60000 % 60)]
        (padDec 2 (d / 1000 % 60)) 2
        (by
          rw [toList_mk]
          have h := durScan_run3 (padDec 2 (d / 3600000)) (padDec 2 (d / 60000 % 60))
            (padDec 2 (d / 1000 % 60)) (padDec_all_digits _ _) (padDec_all_digits _ _)
            (padDec_all_digits _ _)
          simpa using h)
        (by omega)]
      have hok : parseGoDuration ([padDec 2 (d / 3600000), padDec 2 (d / 60000 % 60)]
          ++ [padDec 2 (d / 1000 % 60)]) = .ok (d * 1000000) := by
        have hl : [padDec 2 (d / 3600000), padDec 2 (d / 60000 % 60)]
            ++ [padDec 2 (d / 1000 % 60)]
            = [padDec 2 (d / 3600000), padDec 2 (d / 60000 % 60),
              padDec 2 (d / 1000 % 60)] := by simp
        rw [hl]
        have h := parseGoDuration_eval3 (padDec 2 (d / 3600000))
          (padDec 2 (d / 60000 % 60)) (padDec 2 (d / 1000 % 60))
          (d / 3600000) (d / 60000 % 60) (d / 1000 % 60)
          (padDec_ne_nil _ _) (padDec_ne_nil _ _) (padDec_ne_nil _ _)
          (padDec_all_digits _ _) (padDec_all_digits _ _) (padDec_all_digits _ _)
          (digitsVal_padDec _ _) (digitsVal_padDec _ _) (digitsVal_padDec _ _)
          (by omega) (by omega) (by omega) (by omega)
        have hval : d / 3600000 * 3600000000000 + d / 60000 % 60 * 60000000000
            + d / 1000 % 60 * 1000000000 = d * 1000000 := by omega
        rw [hval] at h
        exact h
      simp only [hok]
      rw [hcast]
/-! Facts about the TimeOffset codec. -/

lemma goParseInt8_ok_iff (s : String) (n : Int) :
    goParseInt8 s = .ok n ↔ (decimalIntVal? s = some n ∧ -128 ≤ n ∧ n ≤ 127) := by
  unfold goParseInt8 decimalIntVal?
  rcases s.toList with - | ⟨c, cs⟩
  · simp [goParseInt8Aux, decimalIntValAux]
  · simp only [goParseInt8Aux, decimalIntValAux]
    cases hx : ((if c = '-' || c = '+' then cs else c :: cs).isEmpty
        || !(if c = '-' || c = '+' then cs else c :: cs).all isDig) with
    | true => simp
    | false =>
      simp only [Bool.false_eq_true, if_false]
      by_cases hneg : c = '-'
      · rw [if_pos hneg, if_pos hneg]
        by_cases hv : digitsVal 0 (if c = '-' || c = '+' then cs else c :: cs) > 128
        · rw [if_pos hv]
          constructor
          · intro h; simp at h
          · rintro ⟨h1, h2, h3⟩
            simp only [Option.some.injEq] at h1
            exfalso; omega
        · rw [if_neg hv]
          simp only [Except.ok.injEq, Option.some.injEq]
          constructor
          · intro h; refine ⟨by omega, by omega, by omega⟩
          · rintro ⟨h1, h2, h3⟩; omega
      · rw [if_neg hneg, if_neg hneg]
        by_cases hv : digitsVal 0 (if c = '-' || c = '+' then cs else c :: cs) > 127
        · rw [if_pos hv]
          constructor
          · intro h; simp at h
          · rintro ⟨h1, h2, h3⟩
            simp only [Option.some.injEq] at h1
            exfalso; omega
        · rw [if_neg hv]
          simp only [Except.ok.injEq, Option.some.injEq]
          constructor
          · intro h; refine ⟨by omega, by omega, by omega⟩
          · rintro ⟨h1, h2, h3⟩; omega

lemma goParseInt8_ok_bounds (s : String) (n : Int) (h : goParseInt8 s = .ok n) :
    -128 ≤ n ∧ n ≤ 127 :=
  ((goParseInt8_ok_iff s n).mp h).2

lemma unmarshalText_percent (off : TimeOffset) (data : String)
    (h : data.toList.getLast? = some '%') :
    TimeOffset.unmarshalText off data =
      match goParseInt8 (String.mk data.toList.dropLast) with
      | .error e => (off, some ("error parsing percentage offset: " ++ e))
      | .ok p => ({ off with Percent := (p : Rat) / 100 }, none) := by
  have h1 : data ≠ "start" := by rintro rfl; exact absurd h (by decide)
  have h2 : data ≠ "end" := by rintro rfl; exact absurd h (by decide)
  unfold TimeOffset.unmarshalText
  rw [if_neg h1, if_neg h2, if_pos h]

lemma unmarshalText_position (off : TimeOffset) (data : String)
    (h0 : ¬ data.toList.getLast? = some '%') (h : data.toList.head? = some '#') :
    TimeOffset.unmarshalText off data =
      match goParseInt8 (String.mk data.toList.tail) with
      | .error e => (off, some ("error parsing position offset: " ++ e))
      | .ok p => ({ off with Position := p }, none) := by
  have h1 : data ≠ "start" := by rintro rfl; exact absurd h (by decide)
  have h2 : data ≠ "end" := by rintro rfl; exact absurd h (by decide)
  unfold TimeOffset.unmarshalText
  rw [if_neg h1, if_neg h2, if_neg h0, if_pos h]

lemma unmarshalText_delegate (off : TimeOffset) (data : String)
    (h1 : data ≠ "start") (h2 : data ≠ "end")
    (h3 : ¬ data.toList.getLast? = some '%') (h4 : ¬ data.toList.head? = some '#') :
    TimeOffset.unmarshalText off data =
      match Duration.unmarshalText data with
      | .ok d => ({ off with Duration := some d }, none)
      | .error e => ({ off with Duration := some ⟨0⟩ }, some e) := by
  unfold TimeOffset.unmarshalText
  rw [if_neg h1, if_neg h2, if_neg h3, if_neg h4]

/-! Facts about what the error messages contain. -/

/-- An out-of-range separator count makes decode fail with the message
that carries the original text. -/
lemma sepCount_out_of_range_error (data : String)
    (h : sepCount data.toList < 2 ∨ 3 < sepCount data.toList) :
    Duration.unmarshalText data = .error ("invalid duration format: " ++ data) := by
  obtain ⟨spec1, spec2⟩ := durScan_spec data.toList [] [] 0 (by omega)
  unfold Duration.unmarshalText
  rcases hd : durScan data.toList [] [] 0 with - | ⟨fs, cur, part⟩
  · rfl
  · have hpart := spec2 fs cur part hd
    have hnn : ¬ durScan data.toList [] [] 0 = none := by rw [hd]; simp
    have hlt : ¬ 4 ≤ 0 + sepCount data.toList := fun hc => hnn (spec1.mpr hc)
    have hplt : part < 2 := by omega
    simp [hplt]

/-- C1: for every non-negative millisecond count d representable as a
time.Duration, decoding the encoding of Duration(d) succeeds and returns
Duration(d); in particular 90:00:00 decodes to 324000000 ms (hours beyond
24 are preserved, not reduced mod 24) and that value encodes back to
exactly 90:00:00. -/
theorem claim_C1 :
    (∀ d : Nat, d ≤ 9223372036854 →
      Duration.unmarshalText (Duration.marshalText ⟨(d : Int) * 1000000⟩)
        = .ok ⟨(d : Int) * 1000000⟩) ∧
    Duration.unmarshalText "90:00:00" = .ok ⟨324000000000000⟩ ∧
    Duration.marshalText ⟨324000000000000⟩ = "90:00:00" :=
  ⟨unmarshal_marshal, rfl, rfl⟩

/-- Witness for C1, at d = 324000000 ms (90 hours). -/
theorem claim_C1_witness :
    Duration.unmarshalText (Duration.marshalText ⟨((324000000 : Nat) : Int) * 1000000⟩)
      = .ok ⟨((324000000 : Nat) : Int) * 1000000⟩ :=
  claim_C1.1 324000000 (by norm_num)

/-- C2: TimeOffset decoding dispatches in order: the exact text start gives
the start anchor (sentinel -1), end gives -2, a percent suffix gives the
Percent variant with value parsed/100 (50 percent gives one half), a hash
prefix gives the Position variant with the parsed value, and any other text
is delegated whole to the duration codec, success wrapped as the Duration
variant and failure propagated. -/
theorem claim_C2 :
    TimeOffset.unmarshalText TimeOffset.zero "start"
      = ({ TimeOffset.zero with Position := -1 }, none) ∧
    TimeOffset.unmarshalText TimeOffset.zero "end"
      = ({ TimeOffset.zero with Position := -2 }, none) ∧
    TimeOffset.unmarshalText TimeOffset.zero "50%"
      = ({ TimeOffset.zero with Percent := 1 / 2 }, none) ∧
    TimeOffset.unmarshalText TimeOffset.zero "#-1"
      = ({ TimeOffset.zero with Position := -1 }, none) ∧
    TimeOffset.unmarshalText TimeOffset.zero "#3"
      = ({ TimeOffset.zero with Position := 3 }, none) ∧
    (∀ (off : TimeOffset) (s : String) (p : Int),
      s.toList.getLast? = some '%' →
      goParseInt8 (String.mk s.toList.dropLast) = .ok p →
      TimeOffset.unmarshalText off s = ({ off with Percent := (p : Rat) / 100 }, none)) ∧
    (∀ (off : TimeOffset) (s : String) (p : Int),
      ¬ s.toList.getLast? = some '%' → s.toList.head? = some '#' →
      goParseInt8 (String.mk s.toList.tail) = .ok p →
      TimeOffset.unmarshalText off s = ({ off with Position := p }, none)) ∧
    (∀ (off : TimeOffset) (s : String),
      s ≠ "start" → s ≠ "end" → ¬ s.toList.getLast? = some '%' →
      ¬ s.toList.head? = some '#' →
      TimeOffset.unmarshalText off s =
        match Duration.unmarshalText s with
        | .ok d => ({ off with Duration := some d }, none)
        | .error e => ({ off with Duration := some ⟨0⟩ }, some e)) := by
  refine ⟨rfl, rfl, ?_, rfl, rfl, ?_, ?_, ?_⟩
  · simp [TimeOffset.unmarshalText, TimeOffset.zero, goParseInt8, goParseInt8Aux,
      digitsVal, isDig]
    norm_num
  · intro off s p h hp
    rw [unmarshalText_percent off s h, hp]
  · intro off s p h0 h hp
    rw [unmarshalText_position off s h0 h, hp]
  · intro off s h1 h2 h3 h4
    exact unmarshalText_delegate off s h1 h2 h3 h4

/-- Witness for C2, delegating the text abc to the duration codec. -/
theorem claim_C2_witness :
    TimeOffset.unmarshalText TimeOffset.zero "abc" =
      match Duration.unmarshalText "abc" with
      | .ok d => ({ TimeOffset.zero with Duration := some d }, none)
      | .error e => ({ TimeOffset.zero with Duration := some ⟨0⟩ }, some e) :=
  claim_C2.2.2.2.2.2.2.2 TimeOffset.zero "abc" (by decide) (by decide) (by decide) (by decide)

/-- C3 counterexample: decoding 1:2:3. (an empty trailing milliseconds
field) does not succeed with the empty unit contributing zero, as the claim
states; it fails, because the empty field makes the s and ms suffixes
adjacent in the constructed string 1h2m3sms and time.ParseDuration rejects
the merged unit run sms. -/
theorem claim_C3_cex :
    Duration.unmarshalText "1:2:3." =
      .error "error parsing duration: time: unknown unit \x22sms\x22 in duration \x221h2m3sms\x22" := rfl

/-- C3 amended: a unit field with no digits is not treated as zero.  Its
neighbouring unit suffixes become adjacent in the constructed string, so
1:2:3. fails with a FormatError (unknown unit sms in 1h2m3sms) and 00::30
fails with a FormatError (unknown unit hm in 00hm30s), while an empty
trailing seconds field merges the m and s suffixes into the valid unit ms
and silently reinterprets the minutes digits as milliseconds: 1:2: decodes
to 3600002000000 ns (1h + 2ms), not to the zero-filled 1h2m reading. -/
theorem claim_C3_amended :
    Duration.unmarshalText "1:2:3." =
      .error "error parsing duration: time: unknown unit \x22sms\x22 in duration \x221h2m3sms\x22" ∧
    Duration.unmarshalText "00::30" =
      .error "error parsing duration: time: unknown unit \x22hm\x22 in duration \x2200hm30s\x22" ∧
    Duration.unmarshalText "1:2:" = .ok ⟨3600002000000⟩ ∧
    Duration.unmarshalText "1:2:" ≠ .ok ⟨3720000000000⟩ := by
  refine ⟨rfl, rfl, rfl, ?_⟩
  intro h
  have h2 : (Except.ok (⟨3600002000000⟩ : Duration) : Except String Duration)
      = .ok ⟨3720000000000⟩ :=
    Eq.trans (Eq.symm (rfl : Duration.unmarshalText "1:2:" = .ok ⟨3600002000000⟩)) h
  exact absurd (Except.ok.inj h2) (by decide)

/-- C4 counterexample: the input 1:2:3:4:5 has 4 separators, inside the
range [2,4] the claim allows, yet decoding fails the separator-count check
with a FormatError. -/
theorem claim_C4_cex :
    sepCount ("1:2:3:4:5".toList) = 4 ∧
    Duration.unmarshalText "1:2:3:4:5" = .error "invalid duration format: 1:2:3:4:5" :=
  ⟨rfl, rfl⟩

/-- C4 amended: the scanner stage succeeds exactly when the number of
separators lies in [2,3] (not [2,4]): a bare number fails, 1:2:3:4:5 fails,
and every input whose separator count lies outside [2,3] fails with the
FormatError carrying the original text. -/
theorem claim_C4_amended :
    (∀ data : String,
      (∃ fs cur part, durScan data.toList [] [] 0 = some (fs, cur, part) ∧ 2 ≤ part) ↔
        (2 ≤ sepCount data.toList ∧ sepCount data.toList ≤ 3)) ∧
    (∀ data : String, sepCount data.toList < 2 ∨ 3 < sepCount data.toList →
      Duration.unmarshalText data = .error ("invalid duration format: " ++ data)) ∧
    Duration.unmarshalText "1" = .error "invalid duration format: 1" ∧
    Duration.unmarshalText "1:2:3:4:5" = .error "invalid duration format: 1:2:3:4:5" := by
  refine ⟨?_, ?_, rfl, rfl⟩
  · intro data
    obtain ⟨spec1, spec2⟩ := durScan_spec data.toList [] [] 0 (by omega)
    constructor
    · rintro ⟨fs, cur, part, h, hp⟩
      have hpart := spec2 fs cur part h
      have hnn : ¬ durScan data.toList [] [] 0 = none := by rw [h]; simp
      have hlt : ¬ 4 ≤ 0 + sepCount data.toList := fun hc => hnn (spec1.mpr hc)
      omega
    · rintro ⟨hge, hle⟩
      rcases hd : durScan data.toList [] [] 0 with - | ⟨fs, cur, part⟩
      · exact absurd (spec1.mp hd) (by omega)
      · exact ⟨fs, cur, part, rfl, by have := spec2 fs cur part hd; omega⟩
  · exact sepCount_out_of_range_error

/-- Witness for the amended C4, at the bare number 1 (zero separators). -/
theorem claim_C4_witness :
    Duration.unmarshalText "1" = .error ("invalid duration format: " ++ "1") :=
  claim_C4_amended.2.1 "1" (Or.inl (by decide))

/-- C5: duration decoding depends only on the interleaved sequence of
digits and separators, with ':' and '.' interchangeable and every other
character stripped; hence 1.2.3 and 1x:2:3y decode to the same value as
1:2:3, namely 3723000 ms. -/
theorem claim_C5 :
    (∀ s1 s2 : String, sig s1.toList = sig s2.toList →
      (Duration.unmarshalText s1).toOption = (Duration.unmarshalText s2).toOption) ∧
    Duration.unmarshalText "1.2.3" = .ok ⟨3723000000000⟩ ∧
    Duration.unmarshalText "1x:2:3y" = .ok ⟨3723000000000⟩ ∧
    Duration.unmarshalText "1:2:3" = .ok ⟨3723000000000⟩ := by
  refine ⟨?_, rfl, rfl, rfl⟩
  intro s1 s2 h
  unfold Duration.unmarshalText
  rw [durScan_sig s1.toList, durScan_sig s2.toList, h]
  rcases durScan (sig s2.toList) [] [] 0 with - | ⟨fs, cur, part⟩
  · rfl
  · by_cases hp : part < 2
    · simp [hp, Except.toOption]
    · simp [hp, Except.toOption]

/-- Witness for C5, at the pair 1.2.3 and 1:2:3. -/
theorem claim_C5_witness :
    (Duration.unmarshalText "1.2.3").toOption
      = (Duration.unmarshalText "1:2:3").toOption :=
  claim_C5.1 "1.2.3" "1:2:3" rfl

/-- C6: TimeOffset encoding applies field precedence (Duration present,
then non-zero Position, then non-zero Percent, else empty), so the start
and end anchors re-encode as the numeric sentinels rather than the words,
and a TimeOffset decoded from hash-zero re-encodes as empty text. -/
theorem claim_C6 :
    (∀ (off : TimeOffset) (d : Duration), off.Duration = some d →
      off.marshalText = d.marshalText) ∧
    (∀ off : TimeOffset, off.Duration = none → off.Position ≠ 0 →
      off.marshalText = "#" ++ String.mk (intToDecimal off.Position)) ∧
    (∀ off : TimeOffset, off.Duration = none → off.Position = 0 → off.Percent ≠ 0 →
      off.marshalText = goFmtF (off.Percent * 100) ++ "%") ∧
    (∀ off : TimeOffset, off.Duration = none → off.Position = 0 → off.Percent = 0 →
      off.marshalText = "") ∧
    (TimeOffset.unmarshalText TimeOffset.zero "start").1.marshalText = "#-1" ∧
    (TimeOffset.unmarshalText TimeOffset.zero "end").1.marshalText = "#-2" ∧
    (TimeOffset.unmarshalText TimeOffset.zero "#0").1.marshalText = "" := by
  refine ⟨?_, ?_, ?_, ?_, rfl, rfl, rfl⟩
  · intro off d h; simp [TimeOffset.marshalText, h]
  · intro off h hp; simp [TimeOffset.marshalText, h, hp]
  · intro off h hp hq; simp [TimeOffset.marshalText, h, hp, hq]
  · intro off h hp hq; simp [TimeOffset.marshalText, h, hp, hq]

/-- Witness for C6, on an offset whose Duration field is present. -/
theorem claim_C6_witness :
    (⟨some ⟨0⟩, 5, 0⟩ : TimeOffset).marshalText = Duration.marshalText ⟨0⟩ :=
  claim_C6.1 ⟨some ⟨0⟩, 5, 0⟩ ⟨0⟩ rfl

/-- C7: for inputs ending in the percent marker, and inputs starting with
the hash marker that do not end in percent, decoding fails exactly when the
text after stripping the marker is not a decimal integer within the signed
8-bit range; the named examples behave accordingly. -/
theorem claim_C7 :
    (∀ (off : TimeOffset) (s : String),
      (s.toList.getLast? = some '%' →
        (((TimeOffset.unmarshalText off s).2.isSome = true) ↔
          ¬ ∃ n : Int, decimalIntVal? (String.mk s.toList.dropLast) = some n ∧
            -128 ≤ n ∧ n ≤ 127)) ∧
      (¬ s.toList.getLast? = some '%' → s.toList.head? = some '#' →
        (((TimeOffset.unmarshalText off s).2.isSome = true) ↔
          ¬ ∃ n : Int, decimalIntVal? (String.mk s.toList.tail) = some n ∧
            -128 ≤ n ∧ n ≤ 127))) ∧
    (TimeOffset.unmarshalText TimeOffset.zero "#abc").2.isSome = true ∧
    (TimeOffset.unmarshalText TimeOffset.zero "abc%").2.isSome = true ∧
    (TimeOffset.unmarshalText TimeOffset.zero "200%").2.isSome = true ∧
    (TimeOffset.unmarshalText TimeOffset.zero "50%").2 = none ∧
    (TimeOffset.unmarshalText TimeOffset.zero "#3").2 = none := by
  refine ⟨?_, rfl, rfl, rfl, rfl, rfl⟩
  intro off s
  constructor
  · intro h
    rw [unmarshalText_percent off s h]
    rcases hg : goParseInt8 (String.mk s.toList.dropLast) with e | p
    · have hno : ¬ ∃ n : Int, decimalIntVal? (String.mk s.toList.dropLast) = some n ∧
          -128 ≤ n ∧ n ≤ 127 := by
        rintro ⟨n, h1, h2, h3⟩
        have hok := (goParseInt8_ok_iff _ n).mpr ⟨h1, h2, h3⟩
        rw [hg] at hok
        exact Except.noConfusion hok
      exact iff_of_true rfl hno
    · have hyes := (goParseInt8_ok_iff _ p).mp hg
      exact iff_of_false (by simp) (not_not_intro ⟨p, hyes⟩)
  · intro h0 h
    rw [unmarshalText_position off s h0 h]
    rcases hg : goParseInt8 (String.mk s.toList.tail) with e | p
    · have hno : ¬ ∃ n : Int, decimalIntVal? (String.mk s.toList.tail) = some n ∧
          -128 ≤ n ∧ n ≤ 127 := by
        rintro ⟨n, h1, h2, h3⟩
        have hok := (goParseInt8_ok_iff _ n).mpr ⟨h1, h2, h3⟩
        rw [hg] at hok
        exact Except.noConfusion hok
      exact iff_of_true rfl hno
    · have hyes := (goParseInt8_ok_iff _ p).mp hg
      exact iff_of_false (by simp) (not_not_intro ⟨p, hyes⟩)

/-- Witness for C7, at the input ending in the percent marker. -/
theorem claim_C7_witness :
    ((TimeOffset.unmarshalText TimeOffset.zero "50%").2.isSome = true) ↔
      ¬ ∃ n : Int, decimalIntVal? (String.mk ("50%".toList.dropLast)) = some n ∧
        -128 ≤ n ∧ n ≤ 127 :=
  (claim_C7.1 TimeOffset.zero "50%").1 rfl

/-- C8 counterexample: the input 127 percent is accepted through the
percent branch, and the stored Percent value 1.27 lies outside [0,1]. -/
theorem claim_C8_cex :
    (TimeOffset.unmarshalText TimeOffset.zero "127%").2 = none ∧
    (TimeOffset.unmarshalText TimeOffset.zero "127%").1.Percent = 127 / 100 ∧
    ¬ ((TimeOffset.unmarshalText TimeOffset.zero "127%").1.Percent ≤ 1) := by
  refine ⟨rfl, ?_, ?_⟩
  · show ((127 : Int) : Rat) / 100 = 127 / 100
    norm_num
  · show ¬ ((127 : Int) : Rat) / 100 ≤ 1
    norm_num

/-- C8 amended: every input accepted through the percent branch stores a
Percent value within [-1.28, 1.27] (the signed 8-bit range divided by
100), not within [0,1]. -/
theorem claim_C8_amended :
    ∀ (off : TimeOffset) (s : String), s.toList.getLast? = some '%' →
      (TimeOffset.unmarshalText off s).2 = none →
      -(128 / 100 : Rat) ≤ (TimeOffset.unmarshalText off s).1.Percent ∧
        (TimeOffset.unmarshalText off s).1.Percent ≤ 127 / 100 := by
  intro off s h hnone
  rw [unmarshalText_percent off s h] at hnone ⊢
  rcases hg : goParseInt8 (String.mk s.toList.dropLast) with e | p
  · rw [hg] at hnone
    exact absurd hnone (by simp)
  · obtain ⟨hb1, hb2⟩ := goParseInt8_ok_bounds _ p hg
    have hq1 : (-128 : Rat) ≤ (p : Rat) := by exact_mod_cast hb1
    have hq2 : (p : Rat) ≤ 127 := by exact_mod_cast hb2
    constructor
    · show -(128 / 100 : Rat) ≤ (p : Rat) / 100
      linarith
    · show (p : Rat) / 100 ≤ 127 / 100
      linarith

/-- Witness for the amended C8, at the input 50 percent. -/
theorem claim_C8_witness :
    -(128 / 100 : Rat) ≤ (TimeOffset.unmarshalText TimeOffset.zero "50%").1.Percent ∧
      (TimeOffset.unmarshalText TimeOffset.zero "50%").1.Percent ≤ 127 / 100 :=
  claim_C8_amended TimeOffset.zero "50%" rfl rfl

/-- C10: when the duration-delegation branch is taken and the delegated
parse fails, the TimeOffset has already been mutated so its Duration field
points at a zero Duration, and encoding that partially-mutated value
returns 00:00:00 rather than empty text. -/
theorem claim_C10 :
    ∀ (off : TimeOffset) (data e : String),
      data ≠ "start" → data ≠ "end" → ¬ data.toList.getLast? = some '%' →
      ¬ data.toList.head? = some '#' →
      Duration.unmarshalText data = .error e →
      TimeOffset.unmarshalText off data = ({ off with Duration := some ⟨0⟩ }, some e) ∧
      (TimeOffset.unmarshalText off data).1.marshalText = "00:00:00" := by
  intro off data e h1 h2 h3 h4 hd
  have hu := unmarshalText_delegate off data h1 h2 h3 h4
  rw [hd] at hu
  constructor
  · rw [hu]
  · rw [hu]
    rfl

/-- Witness for C10, at the input abc from the zero offset. -/
theorem claim_C10_witness :
    TimeOffset.unmarshalText TimeOffset.zero "abc"
      = ({ TimeOffset.zero with Duration := some ⟨0⟩ },
          some "invalid duration format: abc") ∧
    (TimeOffset.unmarshalText TimeOffset.zero "abc").1.marshalText = "00:00:00" :=
  claim_C10 TimeOffset.zero "abc" "invalid duration format: abc"
    (by decide) (by decide) (by decide) (by decide) rfl


end VMAP
